import Mathlib

/-!
Verification of the FoundationDB native client transaction runtime
(`fdbclient/NativeAPI.actor.cpp`): a shallow embedding of the commit
pipeline (conflict ranges, self-conflict insertion, versionstamps), the
retry/backoff loop (`Transaction::onError`, `Transaction::getBackoff`),
the metadata-version ring cache, the GRV read-version batcher, the
location cache insertion/eviction path, the watch-map coalescing rules,
and the oversized-key behaviour of `Transaction::get` / `Transaction::set`.

Keys are byte strings, modelled as lists of byte values compared
lexicographically (the `<` of `StringRef`).  Client knob values are kept
as parameters of the model because `Knobs.cpp` is not part of the sources
under study; sizes are naturals and times are rationals.
-/

/-- A key is a byte string: a list of byte values. -/
abbrev Key := List Nat

/-- Lexicographic strict comparison of byte strings (`operator<` on `StringRef`). -/
def kLt : Key → Key → Bool
  | [], [] => false
  | [], _ :: _ => true
  | _ :: _, [] => false
  | a :: as, b :: bs => if a < b then true else if b < a then false else kLt as bs

/-- Lexicographic `≤` on byte strings, derived from `kLt` as in C++ (`!(b < a)`). -/
def kLe (a b : Key) : Bool := ! kLt b a

theorem kLt_irrefl (k : Key) : kLt k k = false := by
  induction k with
  | nil => rfl
  | cons a as ih => simp [kLt, ih]

theorem kLe_refl (k : Key) : kLe k k = true := by
  simp [kLe, kLt_irrefl]

theorem kLt_trans : ∀ {a b c : Key}, kLt a b = true → kLt b c = true → kLt a c = true
  | [], [], _, h, _ => by simp [kLt] at h
  | [], _ :: _, [], _, h => by simp [kLt] at h
  | [], _ :: _, _ :: _, _, _ => by simp [kLt]
  | _ :: _, [], _, h, _ => by simp [kLt] at h
  | _ :: _, _ :: _, [], _, h => by simp [kLt] at h
  | a :: as, b :: bs, c :: cs, h1, h2 => by
    simp only [kLt] at h1 h2 ⊢
    rcases lt_trichotomy a b with hab | hab | hab
    · rcases lt_trichotomy b c with hbc | hbc | hbc
      · simp [lt_trans hab hbc]
      · subst hbc; simp [hab]
      · simp [hbc, not_lt.mpr (le_of_lt hbc)] at h2
    · subst hab
      rcases lt_trichotomy a c with hac | hac | hac
      · simp [hac]
      · subst hac
        simp [lt_irrefl] at h1 h2 ⊢
        exact kLt_trans h1 h2
      · simp [hac, not_lt.mpr (le_of_lt hac)] at h2
    · simp [hab, not_lt.mpr (le_of_lt hab)] at h1

theorem kLt_asymm {a b : Key} (h : kLt a b = true) : kLt b a = false := by
  by_contra hc
  have hba : kLt b a = true := by
    cases hh : kLt b a
    · exact absurd hh hc
    · rfl
  have := kLt_trans h hba
  simp [kLt_irrefl] at this

theorem kLt_conn : ∀ {a b : Key}, kLt a b = false → kLt b a = false → a = b
  | [], [], _, _ => rfl
  | [], _ :: _, h, _ => by simp [kLt] at h
  | _ :: _, [], _, h => by simp [kLt] at h
  | a :: as, b :: bs, h1, h2 => by
    simp only [kLt] at h1 h2
    rcases lt_trichotomy a b with hab | hab | hab
    · simp [hab] at h1
    · subst hab
      simp [lt_irrefl] at h1 h2
      rw [kLt_conn h1 h2]
    · simp [hab] at h2

/-- A proper extension of a byte string is lexicographically larger. -/
theorem kLt_append_cons (k : Key) (y : Nat) (ys : List Nat) :
    kLt k (k ++ y :: ys) = true := by
  induction k with
  | nil => simp [kLt]
  | cons a as ih => simp [kLt, ih]

/-- Half-open key range `[rbegin, rend)`; `begin`/`end` of `KeyRangeRef`. -/
structure KeyRange where
  rbegin : Key
  rend : Key
deriving DecidableEq, Repr

/-- `keyAfter`: the immediate lexicographic successor of a key (append a zero byte). -/
def keyAfter (k : Key) : Key := k ++ [0]

/-- `singleKeyRange(k) = [k, keyAfter(k))`. -/
def singleKeyRange (k : Key) : KeyRange := ⟨k, keyAfter k⟩

/-- Membership of a key in a half-open range. -/
def memRange (k : Key) (r : KeyRange) : Bool := kLe r.rbegin k && kLt k r.rend

theorem memRange_singleKeyRange (k : Key) : memRange k (singleKeyRange k) = true := by
  simp [memRange, singleKeyRange, keyAfter, kLe_refl, kLt_append_cons]

/-- `KeyRangeRef::operator&`: the intersection of two ranges. -/
def rangeIntersect (a b : KeyRange) : KeyRange :=
  ⟨if kLt a.rbegin b.rbegin then b.rbegin else a.rbegin,
   if kLt a.rend b.rend then a.rend else b.rend⟩

/-- Insertion into a list sorted by `compareBegin` (`lhs.begin < rhs.begin`). -/
def insertByBegin (r : KeyRange) : List KeyRange → List KeyRange
  | [] => [r]
  | x :: xs => if kLt r.rbegin x.rbegin then r :: x :: xs else x :: insertByBegin r xs

/-- The `std::sort(..., compareBegin)` calls in `intersects`, modelled as insertion sort. -/
def sortByBegin (l : List KeyRange) : List KeyRange := l.foldr insertByBegin []

/-- Two-pointer sweep of `intersects` over the two sorted range lists.
The fuel argument bounds the number of loop iterations; it is called with
the total length, which the sweep never exceeds since every iteration
drops one element from one of the lists. -/
def intersectsGo : Nat → List KeyRange → List KeyRange → Option KeyRange
  | 0, _, _ => none
  | _ + 1, [], _ => none
  | _ + 1, _ :: _, [] => none
  | fuel + 1, l :: ls, r :: rs =>
    if kLe l.rend r.rbegin then intersectsGo fuel ls (r :: rs)
    else if kLe r.rend l.rbegin then intersectsGo fuel (l :: ls) rs
    else some (rangeIntersect l r)

/-- `intersects(lhs, rhs)` from NativeAPI.actor.cpp: if both sets are
non-empty, sort each by range begin and sweep for a first overlap. -/
def intersects (lhs rhs : List KeyRange) : Option KeyRange :=
  if lhs.isEmpty || rhs.isEmpty then none
  else intersectsGo (lhs.length + rhs.length) (sortByBegin lhs) (sortByBegin rhs)

/-- The error codes `NativeAPI.actor.cpp` branches on, plus a generic
constructor for every other error code. -/
inductive Err where
  | success
  | not_committed
  | commit_unknown_result
  | database_locked
  | proxy_memory_limit_exceeded
  | process_behind
  | batch_transaction_throttled
  | tag_throttled
  | transaction_too_old
  | future_version
  | client_invalid_operation
  | transaction_read_only
  | transaction_too_large
  | no_commit_version
  | transaction_invalid_version
  | key_too_large
  | value_too_large
  | request_maybe_delivered
  | actor_cancelled
  | other (code : Nat)
deriving DecidableEq, Repr

/-- The client knob values read by the modelled code paths.  `Knobs.cpp`
is not among the sources, so the values stay abstract parameters. -/
structure ClientKnobs where
  KEY_SIZE_LIMIT : Nat
  SYSTEM_KEY_SIZE_LIMIT : Nat
  VALUE_SIZE_LIMIT : Nat
  BACKOFF_GROWTH_RATE : ℚ
  RESOURCE_CONSTRAINED_MAX_BACKOFF : ℚ
  FUTURE_VERSION_RETRY_DELAY : ℚ
  TAG_THROTTLE_RECHECK_INTERVAL : ℚ
  MAX_BATCH_SIZE : Nat
  GRV_BATCH_TIMEOUT : ℚ
deriving DecidableEq, Repr

/-- `systemKeys.begin`, the byte string `"\xff"`. -/
def sysKeysBegin : Key := [255]

/-- The key-size limit applied to a key: `SYSTEM_KEY_SIZE_LIMIT` for keys
under the system-key prefix, `KEY_SIZE_LIMIT` otherwise. -/
def keySizeLimit (ck : ClientKnobs) (k : Key) : Nat :=
  if sysKeysBegin.isPrefixOf k then ck.SYSTEM_KEY_SIZE_LIMIT else ck.KEY_SIZE_LIMIT

/-- Mutation types of `MutationRef` used by the write paths. -/
inductive MutationType where
  | SetValue
  | ClearRange
  | AddValue
  | And
  | AndV2
  | Or
  | Xor
  | Min
  | MinV2
  | Max
  | ByteMin
  | ByteMax
  | AppendIfFits
  | CompareAndClear
  | SetVersionstampedKey
  | SetVersionstampedValue
deriving DecidableEq, Repr

/-- A buffered mutation `(type, param1, param2)`. -/
structure Mutation where
  mtype : MutationType
  param1 : Key
  param2 : List Nat
deriving DecidableEq, Repr

/-- The accumulated transaction buffer (`CommitTransactionRef`): mutations
and the two conflict-range sequences. -/
structure TxBuffer where
  mutations : List Mutation
  read_conflict_ranges : List KeyRange
  write_conflict_ranges : List KeyRange
deriving DecidableEq, Repr

/-- Payload size of a mutation, standing for `MutationRef::expectedSize`. -/
def Mutation.expectedSize (m : Mutation) : Nat := m.param1.length + m.param2.length

/-- Payload size of a key range, standing for `KeyRangeRef::expectedSize`. -/
def KeyRange.expectedSize (r : KeyRange) : Nat := r.rbegin.length + r.rend.length

/-- `Transaction::getSize`: mutations plus both conflict-range sequences. -/
def txTotalSize (t : TxBuffer) : Nat :=
  (t.mutations.map Mutation.expectedSize).sum +
    (t.read_conflict_ranges.map KeyRange.expectedSize).sum +
    (t.write_conflict_ranges.map KeyRange.expectedSize).sum

/-- Mutation-only size, used for the size-limit check before API version 300. -/
def txMutationSize (t : TxBuffer) : Nat := (t.mutations.map Mutation.expectedSize).sum

/-- The `"\xFF/SC/"` tag written by `Transaction::makeSelfConflicting`. -/
def scTag : Key := [255, 47, 83, 67, 47]

/-- `Transaction::makeSelfConflicting`: append the singleton range of
`"\xFF/SC/" ++ <random unique id>` to both conflict-range sequences. -/
def makeSelfConflicting (uid : Key) (t : TxBuffer) : TxBuffer :=
  let r := singleKeyRange (scTag ++ uid)
  { t with
    read_conflict_ranges := t.read_conflict_ranges ++ [r],
    write_conflict_ranges := t.write_conflict_ranges ++ [r] }

/-- `invalidVersion = 0`. -/
def invalidVersion : Int := 0

/-- Option state and environment draws consumed by `Transaction::commitMutations`. -/
structure CommitMutationsIn where
  readOnlyOption : Bool
  causalWriteRisky : Bool
  sizeLimit : Nat
  apiVersion : Nat
  checkWritesDraw : Bool
  extraConflictRanges : List (Key × Key)
  uid : Key
deriving DecidableEq, Repr

/-- The ranges contributed at commit time by the ready extra conflict-range
futures (non-snapshot `getKey`/`getRange` reads) with `first < second`. -/
def commitExtraRanges (args : CommitMutationsIn) : List KeyRange :=
  (args.extraConflictRanges.filter (fun p => kLt p.1 p.2)).map
    (fun p => KeyRange.mk p.1 p.2)

/-- The singleton self-conflicting range `["\xFF/SC/" ++ uid, keyAfter ...)`. -/
def selfConflictRange (args : CommitMutationsIn) : KeyRange :=
  singleKeyRange (scTag ++ args.uid)

/-- How commit preparation ends: immediate success (read-only), a failed
future, or submission of the prepared buffer to `tryCommit`. -/
inductive CommitPrepOutcome where
  | immediateSuccess
  | failed (e : Err)
  | submit (t : TxBuffer)
deriving DecidableEq, Repr

/-- The observable result of `commitMutations`: the outcome, the
transaction's `committedVersion` field, and the error (if any) sent to the
versionstamp promise during preparation. -/
structure CommitPrepOut where
  outcome : CommitPrepOutcome
  committedVersion : Int
  vsError : Option Err
deriving DecidableEq, Repr

/-- `Transaction::commitMutations`, up to the hand-off to `tryCommit`:
read-only early completion, the `options.readOnly` rejection, the size
limit, resolution of ready extra conflict ranges, the self-conflict
insertion, and the `checkWrites` read-range duplication. -/
def commitMutations (args : CommitMutationsIn) (prevCommittedVersion : Int)
    (t : TxBuffer) : CommitPrepOut :=
  if t.write_conflict_ranges.isEmpty && t.mutations.isEmpty then
    { outcome := .immediateSuccess, committedVersion := invalidVersion,
      vsError := some .no_commit_version }
  else if args.readOnlyOption then
    { outcome := .failed .transaction_read_only,
      committedVersion := prevCommittedVersion, vsError := none }
  else
    let size := if 300 ≤ args.apiVersion then txTotalSize t else txMutationSize t
    if args.sizeLimit < size then
      { outcome := .failed .transaction_too_large,
        committedVersion := prevCommittedVersion, vsError := none }
    else
      let t1 := { t with read_conflict_ranges :=
        t.read_conflict_ranges ++ commitExtraRanges args }
      let t2 :=
        if !args.causalWriteRisky &&
            (intersects t1.write_conflict_ranges t1.read_conflict_ranges).isNone then
          makeSelfConflicting args.uid t1
        else t1
      let t3 :=
        if args.checkWritesDraw then
          { t2 with read_conflict_ranges :=
              t2.read_conflict_ranges ++ t2.write_conflict_ranges }
        else t2
      { outcome := .submit t3, committedVersion := prevCommittedVersion,
        vsError := none }

/-- A key covered by at least one range of a conflict-range sequence. -/
def coveredBy (k : Key) (rs : List KeyRange) : Prop := ∃ r ∈ rs, memRange k r = true

/-- The buffer produced by the conflict-range preparation steps of
`commitMutations` once the early exits have been passed. -/
def commitPreparedBuffer (args : CommitMutationsIn) (t : TxBuffer) : TxBuffer :=
  let t1 := { t with read_conflict_ranges :=
    t.read_conflict_ranges ++ commitExtraRanges args }
  let t2 :=
    if !args.causalWriteRisky &&
        (intersects t1.write_conflict_ranges t1.read_conflict_ranges).isNone then
      makeSelfConflicting args.uid t1
    else t1
  if args.checkWritesDraw then
    { t2 with read_conflict_ranges :=
        t2.read_conflict_ranges ++ t2.write_conflict_ranges }
  else t2

theorem commitMutations_submit (args : CommitMutationsIn) (pcv : Int) (t : TxBuffer)
    (hn : (t.write_conflict_ranges.isEmpty && t.mutations.isEmpty) = false)
    (hro : args.readOnlyOption = false)
    (hsz : (if 300 ≤ args.apiVersion then txTotalSize t else txMutationSize t)
      ≤ args.sizeLimit) :
    commitMutations args pcv t =
      { outcome := .submit (commitPreparedBuffer args t),
        committedVersion := pcv, vsError := none } := by
  rw [commitMutations, commitPreparedBuffer]
  rw [hn, hro]
  simp only [Bool.false_eq_true, if_false]
  rw [if_neg (not_lt.mpr hsz)]

/-- C1: with `causalWriteRisky` unset, when the write and read
conflict-range sequences (after adding the ready extra ranges) have empty
`intersects`, `commitMutations` appends the freshly generated
`"\xFF/SC/" ++ uid` singleton to both sequences, after which the key
`"\xFF/SC/" ++ uid` is covered by both sequences, so their intersection is
non-empty; when `intersects` finds an overlap, no self-conflicting range
is inserted. -/
theorem commitMutations_self_conflict
    (args : CommitMutationsIn) (pcv : Int) (t : TxBuffer)
    (hn : (t.write_conflict_ranges.isEmpty && t.mutations.isEmpty) = false)
    (hro : args.readOnlyOption = false)
    (hsz : (if 300 ≤ args.apiVersion then txTotalSize t else txMutationSize t)
      ≤ args.sizeLimit)
    (hcw : args.causalWriteRisky = false) :
    (intersects t.write_conflict_ranges
        (t.read_conflict_ranges ++ commitExtraRanges args) = none →
      ∃ t3, (commitMutations args pcv t).outcome = .submit t3 ∧
        t3.write_conflict_ranges =
          t.write_conflict_ranges ++ [selfConflictRange args] ∧
        selfConflictRange args ∈ t3.read_conflict_ranges ∧
        (args.checkWritesDraw = false → t3.read_conflict_ranges =
          (t.read_conflict_ranges ++ commitExtraRanges args) ++
            [selfConflictRange args]) ∧
        coveredBy (scTag ++ args.uid) t3.read_conflict_ranges ∧
        coveredBy (scTag ++ args.uid) t3.write_conflict_ranges) ∧
    (∀ r, intersects t.write_conflict_ranges
        (t.read_conflict_ranges ++ commitExtraRanges args) = some r →
      ∃ t3, (commitMutations args pcv t).outcome = .submit t3 ∧
        t3.write_conflict_ranges = t.write_conflict_ranges) := by
  have hsub := commitMutations_submit args pcv t hn hro hsz
  constructor
  · intro hint
    refine ⟨commitPreparedBuffer args t, by rw [hsub], ?_, ?_, ?_, ?_, ?_⟩
    · rw [commitPreparedBuffer]
      simp only [hcw, Bool.not_false, Bool.true_and, hint, Option.isNone_none,
        if_true, makeSelfConflicting, selfConflictRange]
      cases args.checkWritesDraw <;> simp
    · rw [commitPreparedBuffer]
      simp only [hcw, Bool.not_false, Bool.true_and, hint, Option.isNone_none,
        if_true, makeSelfConflicting, selfConflictRange]
      cases args.checkWritesDraw <;> simp
    · intro hchk
      rw [commitPreparedBuffer]
      simp only [hcw, Bool.not_false, Bool.true_and, hint, Option.isNone_none,
        if_true, makeSelfConflicting, selfConflictRange, hchk,
        Bool.false_eq_true, if_false]
    · refine ⟨selfConflictRange args, ?_, memRange_singleKeyRange _⟩
      rw [commitPreparedBuffer]
      simp only [hcw, Bool.not_false, Bool.true_and, hint, Option.isNone_none,
        if_true, makeSelfConflicting, selfConflictRange]
      cases args.checkWritesDraw <;> simp
    · refine ⟨selfConflictRange args, ?_, memRange_singleKeyRange _⟩
      rw [commitPreparedBuffer]
      simp only [hcw, Bool.not_false, Bool.true_and, hint, Option.isNone_none,
        if_true, makeSelfConflicting, selfConflictRange]
      cases args.checkWritesDraw <;> simp
  · intro r hint
    refine ⟨commitPreparedBuffer args t, by rw [hsub], ?_⟩
    rw [commitPreparedBuffer]
    simp only [hint, Option.isNone_some, Bool.and_false, Bool.false_eq_true,
      if_false]
    cases args.checkWritesDraw <;> simp

/-- Concrete option state for evaluating the commit-preparation theorems. -/
def c1Args : CommitMutationsIn :=
  { readOnlyOption := false, causalWriteRisky := false, sizeLimit := 1000,
    apiVersion := 700, checkWritesDraw := false, extraConflictRanges := [],
    uid := [9] }

/-- A concrete one-mutation buffer with disjoint conflict-range sequences. -/
def c1Buf : TxBuffer :=
  { mutations := [⟨.SetValue, [1], [2]⟩], read_conflict_ranges := [],
    write_conflict_ranges := [singleKeyRange [1]] }

theorem commitMutations_self_conflict_witness :
    ∃ t3, (commitMutations c1Args 0 c1Buf).outcome = .submit t3 ∧
      t3.write_conflict_ranges =
        c1Buf.write_conflict_ranges ++ [selfConflictRange c1Args] ∧
      selfConflictRange c1Args ∈ t3.read_conflict_ranges ∧
      (c1Args.checkWritesDraw = false → t3.read_conflict_ranges =
        (c1Buf.read_conflict_ranges ++ commitExtraRanges c1Args) ++
          [selfConflictRange c1Args]) ∧
      coveredBy (scTag ++ c1Args.uid) t3.read_conflict_ranges ∧
      coveredBy (scTag ++ c1Args.uid) t3.write_conflict_ranges :=
  (commitMutations_self_conflict c1Args 0 c1Buf (by decide) rfl (by decide)
    rfl).1 (by decide)

/-- C6: a transaction with no mutations and no write conflict ranges
completes `commitMutations` immediately: the committed version is set to
`invalidVersion`, the versionstamp promise receives `no_commit_version`,
and the outcome is immediate success, not a submission to `tryCommit`. -/
theorem commitMutations_readOnly_immediate
    (args : CommitMutationsIn) (pcv : Int) (t : TxBuffer)
    (hm : t.mutations = []) (hw : t.write_conflict_ranges = []) :
    commitMutations args pcv t =
      { outcome := .immediateSuccess, committedVersion := invalidVersion,
        vsError := some .no_commit_version } := by
  rw [commitMutations]
  simp [hm, hw]

/-- Concrete option state for evaluating the read-only commit theorem. -/
def c6Args : CommitMutationsIn :=
  { readOnlyOption := false, causalWriteRisky := true, sizeLimit := 5,
    apiVersion := 600, checkWritesDraw := false, extraConflictRanges := [],
    uid := [4] }

theorem commitMutations_readOnly_immediate_witness :
    commitMutations c6Args 7
        { mutations := [], read_conflict_ranges := [singleKeyRange [3]],
          write_conflict_ranges := [] } =
      { outcome := .immediateSuccess, committedVersion := invalidVersion,
        vsError := some .no_commit_version } :=
  commitMutations_readOnly_immediate c6Args 7 _ rfl rfl

/-- Big-endian 16-bit byte encoding. -/
def be16 (n : Nat) : List Nat := [n / 2 ^ 8 % 256, n % 256]

/-- Big-endian 64-bit byte encoding. -/
def be64 (n : Nat) : List Nat :=
  [n / 2 ^ 56 % 256, n / 2 ^ 48 % 256, n / 2 ^ 40 % 256, n / 2 ^ 32 % 256,
   n / 2 ^ 24 % 256, n / 2 ^ 16 % 256, n / 2 ^ 8 % 256, n % 256]

/-- Modelled from the spec: `placeVersionstamp` (its body is outside the
sources under study) produces the 10-byte versionstamp, the 8-byte
big-endian commit version followed by the 2-byte big-endian transaction
batch index. -/
def placeVersionstamp (v : Int) (txnBatchId : Nat) : List Nat :=
  be64 v.toNat ++ be16 txnBatchId

/-- The commit proxy's answer as seen by `tryCommit`: a `CommitID` reply
or an error from the RPC layer. -/
inductive CommitReply where
  | reply (version : Int) (metadataVersion : Option Key) (txnBatchId : Nat)
  | err (e : Err)
deriving DecidableEq, Repr

/-- How `tryCommit` ends: success together with the versionstamp bytes it
sends to the versionstamp promise, or a thrown error. -/
inductive TryCommitRes where
  | ok (v : Int) (txnBatchId : Nat) (vsBytes : List Nat)
  | thrown (e : Err)
deriving DecidableEq, Repr

/-- The reply handling of `tryCommit`: a reply with `version ≠
invalidVersion` is a successful commit and sends the versionstamp bytes; a
reply with `invalidVersion` is a conflict and throws `not_committed`;
`request_maybe_delivered` and `commit_unknown_result` are rethrown as
`commit_unknown_result` after the dummy-transaction probe; any other error
is rethrown unchanged. -/
def tryCommitModel (r : CommitReply) : TryCommitRes :=
  match r with
  | .reply v _ b =>
    if v ≠ invalidVersion then .ok v b (placeVersionstamp v b)
    else .thrown .not_committed
  | .err e =>
    if e = .request_maybe_delivered ∨ e = .commit_unknown_result then
      .thrown .commit_unknown_result
    else .thrown e

/-- The final fate of one commit attempt. -/
inductive CommitOutcome where
  | committed (v : Int) (txnBatchId : Nat)
  | immediate
  | failed (e : Err)
deriving DecidableEq, Repr

/-- The final state of the versionstamp promise. -/
inductive VsOutcome where
  | value (bytes : List Nat)
  | errv (e : Err)
deriving DecidableEq, Repr

/-- `commitAndWatch` wrapping `commitMutations` and `tryCommit`: on the
read-only path the promise already carries `no_commit_version`; when the
commit future fails (from preparation or from `tryCommit`), the catch
block completes the promise with `transaction_invalid_version`; on success
the promise carries the bytes sent by `tryCommit`. -/
def commitAndWatchModel (args : CommitMutationsIn) (pcv : Int) (t : TxBuffer)
    (reply : CommitReply) : CommitOutcome × VsOutcome :=
  match (commitMutations args pcv t).outcome with
  | .immediateSuccess => (.immediate, .errv .no_commit_version)
  | .failed e => (.failed e, .errv .transaction_invalid_version)
  | .submit _ =>
    match tryCommitModel reply with
    | .ok v b bs => (.committed v b, .value bs)
    | .thrown e => (.failed e, .errv .transaction_invalid_version)

/-- C2: the versionstamp promise resolves with a value exactly when the
commit succeeds with a real commit version; the value is the 10-byte
`be64(version) ++ be16(txnBatchId)`; every failed commit and the read-only
immediate-completion path complete the promise with an error instead. -/
theorem versionstamp_resolves_iff_commit_succeeds
    (args : CommitMutationsIn) (pcv : Int) (t : TxBuffer) (reply : CommitReply) :
    ((∃ bs, (commitAndWatchModel args pcv t reply).2 = .value bs) ↔
      (∃ v b, (commitAndWatchModel args pcv t reply).1 = .committed v b)) ∧
    (∀ v b, (commitAndWatchModel args pcv t reply).1 = .committed v b →
      (commitAndWatchModel args pcv t reply).2 =
        .value (be64 v.toNat ++ be16 b) ∧
      (be64 v.toNat ++ be16 b).length = 10 ∧ v ≠ invalidVersion) ∧
    (∀ e, (commitAndWatchModel args pcv t reply).1 = .failed e →
      (commitAndWatchModel args pcv t reply).2 =
        .errv .transaction_invalid_version) ∧
    ((commitAndWatchModel args pcv t reply).1 = .immediate →
      (commitAndWatchModel args pcv t reply).2 = .errv .no_commit_version) := by
  rw [commitAndWatchModel]
  rcases hout : (commitMutations args pcv t).outcome with _ | e0 | t3
  · simp
  · simp
  · cases hreply : tryCommitModel reply with
    | ok v1 b1 bs1 =>
      have hv1 : v1 ≠ invalidVersion ∧ bs1 = placeVersionstamp v1 b1 := by
        rcases reply with ⟨v2, mv2, b2⟩ | e2
        · rw [tryCommitModel] at hreply
          by_cases hv2 : v2 ≠ invalidVersion
          · rw [if_pos hv2] at hreply
            cases hreply
            exact ⟨hv2, rfl⟩
          · rw [if_neg hv2] at hreply
            cases hreply
        · rw [tryCommitModel] at hreply
          split at hreply <;> cases hreply
      simp only
      refine ⟨by simp, ?_, by simp, by simp⟩
      intro v b hvb
      cases hvb
      exact ⟨by rw [hv1.2]; rfl, by rfl, hv1.1⟩
    | thrown e1 => simp

/-- Concrete inputs: the buffer of `c1Buf` submitted and answered by a
successful proxy reply at version 5, batch index 2. -/
theorem versionstamp_resolves_iff_commit_succeeds_witness :
    (commitAndWatchModel c1Args 0 c1Buf (.reply 5 none 2)).2 =
      .value (be64 (5 : Int).toNat ++ be16 2) :=
  ((versionstamp_resolves_iff_commit_succeeds c1Args 0 c1Buf
    (.reply 5 none 2)).2.1 5 2 (by decide)).1

/-- One priority's client tag-throttle table: tag to the remaining
throttle duration (`ClientTagThrottleData::throttleDuration()` evaluated
at the call instant). -/
abbrev ThrottleTable := List (Nat × ℚ)

/-- The transaction state read by `Transaction::onError` and
`Transaction::getBackoff`: the stored backoff, `options.maxBackoff`,
`options.tags`, and the throttle table of `options.priority`. -/
structure OnErrorState where
  backoff : ℚ
  maxBackoff : ℚ
  tags : List Nat
  throttledTags : ThrottleTable
deriving DecidableEq, Repr

/-- The tag loop of `Transaction::getBackoff` under `tag_throttled`: for
each of the transaction's tags present in the throttle table, raise the
returned backoff to `min(TAG_THROTTLE_RECHECK_INTERVAL,
throttleDuration)`, breaking once it reaches the recheck interval. -/
def getBackoffLoop (ck : ClientKnobs) (table : ThrottleTable) (acc : ℚ) :
    List Nat → ℚ
  | [] => acc
  | tag :: rest =>
    match table.lookup tag with
    | none => getBackoffLoop ck table acc rest
    | some dur =>
      let acc2 := max acc (min ck.TAG_THROTTLE_RECHECK_INTERVAL dur)
      if acc2 = ck.TAG_THROTTLE_RECHECK_INTERVAL then acc2
      else getBackoffLoop ck table acc2 rest

/-- `Transaction::getBackoff`: the delay handed to the caller (the base
backoff, raised for `tag_throttled`, times the uniform draw `r01`) and
the updated stored backoff, bounded by `RESOURCE_CONSTRAINED_MAX_BACKOFF`
for `proxy_memory_limit_exceeded` and by `options.maxBackoff` otherwise. -/
def getBackoff (ck : ClientKnobs) (s : OnErrorState) (errCode : Err)
    (r01 : ℚ) : ℚ × ℚ :=
  let returned :=
    if errCode = .tag_throttled then
      getBackoffLoop ck s.throttledTags s.backoff s.tags
    else s.backoff
  let delay := returned * r01
  let stored :=
    if errCode = .proxy_memory_limit_exceeded then
      min (s.backoff * ck.BACKOFF_GROWTH_RATE) ck.RESOURCE_CONSTRAINED_MAX_BACKOFF
    else min (s.backoff * ck.BACKOFF_GROWTH_RATE) s.maxBackoff
  (delay, stored)

/-- The visible behaviour of `Transaction::onError`: either reset the
transaction and delay, or hand the error back to the caller. -/
inductive OnErrorRes where
  | retry (didReset : Bool) (delay : ℚ)
  | raise (e : Err)
deriving DecidableEq, Repr

/-- `Transaction::onError`: its result together with the stored backoff
after the call. -/
def onError (ck : ClientKnobs) (s : OnErrorState) (e : Err) (r01 : ℚ) :
    OnErrorRes × ℚ :=
  if e = .success then (.raise .client_invalid_operation, s.backoff)
  else if e = .not_committed ∨ e = .commit_unknown_result ∨
      e = .database_locked ∨ e = .proxy_memory_limit_exceeded ∨
      e = .process_behind ∨ e = .batch_transaction_throttled ∨
      e = .tag_throttled then
    let bd := getBackoff ck s e r01
    (.retry true bd.1, bd.2)
  else if e = .transaction_too_old ∨ e = .future_version then
    (.retry true (min ck.FUTURE_VERSION_RETRY_DELAY s.maxBackoff), s.backoff)
  else (.raise e, s.backoff)

/-- Concrete knob values for the `onError` evaluations. -/
def c3K : ClientKnobs :=
  { KEY_SIZE_LIMIT := 100, SYSTEM_KEY_SIZE_LIMIT := 300,
    VALUE_SIZE_LIMIT := 100, BACKOFF_GROWTH_RATE := 2,
    RESOURCE_CONSTRAINED_MAX_BACKOFF := 8, FUTURE_VERSION_RETRY_DELAY := 1,
    TAG_THROTTLE_RECHECK_INTERVAL := 2, MAX_BATCH_SIZE := 5,
    GRV_BATCH_TIMEOUT := 1 }

/-- A transaction whose single tag is throttled for 2 seconds. -/
def c3S : OnErrorState :=
  { backoff := 0, maxBackoff := 8, tags := [7], throttledTags := [(7, 2)] }

/-- C3 counterexample: with a throttled tag in the table, `onError` on
`tag_throttled` delays `min(TAG_THROTTLE_RECHECK_INTERVAL,
throttleDuration) * r01 = 2`, not `backoff * r01 = 0` as the claim
states. -/
theorem onError_counterexample :
    (onError c3K c3S .tag_throttled 1).1 = .retry true 2 ∧
      (2 : ℚ) ≠ c3S.backoff * 1 := by
  constructor
  · rw [onError, getBackoff]
    norm_num [c3K, c3S, getBackoffLoop, List.lookup]
    rw [if_neg (by decide)]
  · rw [c3S]
    norm_num

/-- Spec-level reformulation of the `tag_throttled` base delay: the fold
over the transaction's tags without the early break. -/
def tagThrottledBase (ck : ClientKnobs) (s : OnErrorState) : ℚ :=
  s.tags.foldl
    (fun acc tag =>
      match s.throttledTags.lookup tag with
      | none => acc
      | some dur => max acc (min ck.TAG_THROTTLE_RECHECK_INTERVAL dur))
    s.backoff

theorem getBackoffLoop_saturated (ck : ClientKnobs) (table : ThrottleTable)
    (tags : List Nat) :
    tags.foldl
      (fun acc tag =>
        match table.lookup tag with
        | none => acc
        | some dur => max acc (min ck.TAG_THROTTLE_RECHECK_INTERVAL dur))
      ck.TAG_THROTTLE_RECHECK_INTERVAL = ck.TAG_THROTTLE_RECHECK_INTERVAL := by
  induction tags with
  | nil => rfl
  | cons tag rest ih =>
    simp only [List.foldl_cons]
    cases table.lookup tag with
    | none => exact ih
    | some dur =>
      simp only [max_eq_left (min_le_left _ _)]
      exact ih

/-- The break in the `getBackoff` tag loop does not change its value: the
loop equals the plain fold. -/
theorem getBackoffLoop_eq_foldl (ck : ClientKnobs) (table : ThrottleTable) :
    ∀ (tags : List Nat) (acc : ℚ),
      getBackoffLoop ck table acc tags =
        tags.foldl
          (fun acc tag =>
            match table.lookup tag with
            | none => acc
            | some dur => max acc (min ck.TAG_THROTTLE_RECHECK_INTERVAL dur))
          acc := by
  intro tags
  induction tags with
  | nil => intro acc; rfl
  | cons tag rest ih =>
    intro acc
    rw [getBackoffLoop, List.foldl_cons]
    cases hl : table.lookup tag with
    | none => exact ih acc
    | some dur =>
      simp only
      by_cases hsat :
          max acc (min ck.TAG_THROTTLE_RECHECK_INTERVAL dur) =
            ck.TAG_THROTTLE_RECHECK_INTERVAL
      · rw [if_pos hsat, hsat]
        exact (getBackoffLoop_saturated ck table rest).symm
      · rw [if_neg hsat]
        exact ih _

/-- C3 amended: `onError` on the seven transient errors resets and delays
`base * r01`, where the base is the stored backoff except for
`tag_throttled`, whose base is further raised to the largest
`min(TAG_THROTTLE_RECHECK_INTERVAL, throttleDuration)` over the
transaction's tags found in the throttle table; the stored backoff grows
to `min(backoff * BACKOFF_GROWTH_RATE, maxBackoff)` with
`RESOURCE_CONSTRAINED_MAX_BACKOFF` as the bound for
`proxy_memory_limit_exceeded`; `transaction_too_old` and `future_version`
reset and delay `min(FUTURE_VERSION_RETRY_DELAY, maxBackoff)` leaving the
stored backoff unchanged; `success` is rejected with
`client_invalid_operation`; every other error is returned unchanged. -/
theorem onError_backoff_classification (ck : ClientKnobs) (s : OnErrorState)
    (e : Err) (r01 : ℚ) :
    (e = .not_committed ∨ e = .commit_unknown_result ∨
        e = .database_locked ∨ e = .proxy_memory_limit_exceeded ∨
        e = .process_behind ∨ e = .batch_transaction_throttled →
      onError ck s e r01 =
        (.retry true (s.backoff * r01),
          min (s.backoff * ck.BACKOFF_GROWTH_RATE)
            (if e = .proxy_memory_limit_exceeded then
              ck.RESOURCE_CONSTRAINED_MAX_BACKOFF
            else s.maxBackoff))) ∧
    (e = .tag_throttled →
      onError ck s e r01 =
        (.retry true (tagThrottledBase ck s * r01),
          min (s.backoff * ck.BACKOFF_GROWTH_RATE) s.maxBackoff)) ∧
    (e = .transaction_too_old ∨ e = .future_version →
      onError ck s e r01 =
        (.retry true (min ck.FUTURE_VERSION_RETRY_DELAY s.maxBackoff),
          s.backoff)) ∧
    (e = .success →
      onError ck s e r01 = (.raise .client_invalid_operation, s.backoff)) ∧
    (e ≠ .success → e ≠ .not_committed → e ≠ .commit_unknown_result →
      e ≠ .database_locked → e ≠ .proxy_memory_limit_exceeded →
      e ≠ .process_behind → e ≠ .batch_transaction_throttled →
      e ≠ .tag_throttled → e ≠ .transaction_too_old → e ≠ .future_version →
      onError ck s e r01 = (.raise e, s.backoff)) := by
  refine ⟨?_, ?_, ?_, ?_, ?_⟩
  · intro h6
    have hns : e ≠ .success := by rcases h6 with h | h | h | h | h | h <;> subst h <;> decide
    have hnt : e ≠ .tag_throttled := by rcases h6 with h | h | h | h | h | h <;> subst h <;> decide
    rw [onError, if_neg hns, if_pos (by tauto), getBackoff, if_neg hnt]
    rcases h6 with h | h | h | h | h | h <;> subst h <;> simp
  · intro h
    subst h
    rw [onError, getBackoff]
    simp only [reduceCtorEq, if_false, if_neg, or_true, if_pos, if_true]
    rw [getBackoffLoop_eq_foldl]
    rfl
  · intro h2
    have hns : e ≠ .success := by rcases h2 with h | h <;> subst h <;> decide
    have hnot : ¬ (e = .not_committed ∨ e = .commit_unknown_result ∨
        e = .database_locked ∨ e = .proxy_memory_limit_exceeded ∨
        e = .process_behind ∨ e = .batch_transaction_throttled ∨
        e = .tag_throttled) := by
      rcases h2 with h | h <;> subst h <;> decide
    rw [onError, if_neg hns, if_neg hnot, if_pos h2]
  · intro h
    subst h
    rw [onError, if_pos rfl]
  · intro h0 h1 h2 h3 h4 h5 h6 h7 h8 h9
    rw [onError, if_neg h0, if_neg (by tauto), if_neg (by tauto)]

/-- A throttle-free transaction state with backoff 1. -/
def c3S2 : OnErrorState :=
  { backoff := 1, maxBackoff := 1, tags := [], throttledTags := [] }

theorem onError_backoff_classification_witness :
    onError c3K c3S2 .not_committed 1 = (.retry true 1, 1) := by
  have h := (onError_backoff_classification c3K c3S2 .not_committed 1).1
    (Or.inl rfl)
  rw [h, if_neg (by decide)]
  rw [c3S2]
  norm_num [c3K, min_def]

/-- The metadata-version ring cache of a `DatabaseContext`:
`metadataVersionCache` together with `mvCacheInsertLocation`.  The ring
contents are a total function from position to `(version,
metadata_version)`; only positions below `size` are meaningful. -/
structure MVCache where
  size : Nat
  loc : Nat
  cache : Nat → Int × Option Key

/-- The version stored at the current insert location. -/
def mvHeadVersion (s : MVCache) : Int := (s.cache s.loc).1

/-- The guarded ring write performed by both `extractReadVersion` (on a
GRV reply) and `tryCommit` (on a successful commit): if the new version
strictly exceeds the version at the insert location, advance the insert
location cyclically and store the pair there; otherwise do nothing. -/
def mvUpdate (s : MVCache) (v : Int) (mv : Option Key) : MVCache :=
  if mvHeadVersion s < v then
    let loc2 := (s.loc + 1) % s.size
    { s with
      loc := loc2
      cache := fun i => if i = loc2 then (v, mv) else s.cache i }
  else s

/-- An event that touches the metadata-version cache. -/
inductive MVEvent where
  | grvReply (v : Int) (mv : Option Key)
  | commitSuccess (v : Int) (mv : Option Key)

/-- Dispatch of one event to the guarded ring write. -/
def mvStep (s : MVCache) (e : MVEvent) : MVCache :=
  match e with
  | .grvReply v mv => mvUpdate s v mv
  | .commitSuccess v mv => mvUpdate s v mv

theorem mvUpdate_headVersion_le (s : MVCache) (v : Int) (mv : Option Key) :
    mvHeadVersion s ≤ mvHeadVersion (mvUpdate s v mv) := by
  rw [mvUpdate]
  by_cases h : mvHeadVersion s < v
  · rw [if_pos h]
    have : mvHeadVersion
        { s with
          loc := (s.loc + 1) % s.size
          cache := fun i => if i = (s.loc + 1) % s.size then (v, mv)
            else s.cache i } = v := by
      simp [mvHeadVersion]
    rw [this]
    exact le_of_lt h
  · rw [if_neg h]

/-- C4: every handled GRV reply and every successful commit advances the
metadata-version cache monotonically: a pair is written at a new ring head
only when its version strictly exceeds the version at the current head (a
write makes the head version equal to the new version, and a
non-exceeding version leaves the state untouched), so across any sequence
of GRV replies and commits the version at the insert location never
decreases. -/
theorem metadataVersionCache_monotone (s : MVCache) (es : List MVEvent) :
    mvHeadVersion s ≤ mvHeadVersion (es.foldl mvStep s) ∧
    (∀ v mv, ¬ mvHeadVersion s < v → mvUpdate s v mv = s) ∧
    (∀ v mv, mvHeadVersion s < v →
      mvHeadVersion (mvUpdate s v mv) = v ∧
      (mvUpdate s v mv).loc = (s.loc + 1) % s.size ∧
      (mvUpdate s v mv).cache ((s.loc + 1) % s.size) = (v, mv)) := by
  refine ⟨?_, ?_, ?_⟩
  · induction es generalizing s with
    | nil => exact le_refl _
    | cons e rest ih =>
      rw [List.foldl_cons]
      refine le_trans ?_ (ih (mvStep s e))
      cases e with
      | grvReply v mv => exact mvUpdate_headVersion_le s v mv
      | commitSuccess v mv => exact mvUpdate_headVersion_le s v mv
  · intro v mv h
    rw [mvUpdate, if_neg h]
  · intro v mv h
    rw [mvUpdate, if_pos h]
    refine ⟨by simp [mvHeadVersion], rfl, by simp⟩

/-- A concrete two-slot ring starting at version 0. -/
def c4Cache : MVCache := { size := 2, loc := 0, cache := fun _ => (0, none) }

theorem metadataVersionCache_monotone_witness :
    mvHeadVersion c4Cache ≤
      mvHeadVersion ([MVEvent.grvReply 5 none,
        MVEvent.commitSuccess 3 none].foldl mvStep c4Cache) ∧
    mvHeadVersion (mvUpdate c4Cache 5 none) = 5 :=
  ⟨(metadataVersionCache_monotone c4Cache
      [MVEvent.grvReply 5 none, MVEvent.commitSuccess 3 none]).1,
   ((metadataVersionCache_monotone c4Cache []).2.2 5 none (by decide)).1⟩

/-- The loop state of `readVersionBatcher`: the queued user requests, the
validity of the batch timeout future, and the dynamic batch time. -/
structure BatcherState where
  requests : Nat
  timerActive : Bool
  batchTime : ℚ
deriving DecidableEq, Repr

/-- The three `choose` branches of the batcher loop: a request arriving on
the version stream, the batch timeout firing, and a measured GRV reply
latency arriving on `replyTimes`. -/
inductive BatcherEvent where
  | request
  | timeoutFired
  | replyLatency (l : ℚ)
deriving DecidableEq, Repr

/-- One iteration of the `readVersionBatcher` loop.  The second component
is the `count` carried by the dispatched `GetReadVersion` RPC when this
iteration sends a batch.  A queued request dispatches when the queue
reaches `MAX_BATCH_SIZE` and otherwise starts the timeout if it is not
running; the timeout branch can only fire while the timeout future is
valid; a reply latency updates the batch time through the clamped low-pass
filter. -/
def rvbStep (ck : ClientKnobs) (s : BatcherState) (e : BatcherEvent) :
    BatcherState × Option Nat :=
  match e with
  | .request =>
    let n := s.requests + 1
    if n = ck.MAX_BATCH_SIZE then
      ({ requests := 0, timerActive := false, batchTime := s.batchTime }, some n)
    else
      ({ s with requests := n, timerActive := true }, none)
  | .timeoutFired =>
    if s.timerActive then
      ({ requests := 0, timerActive := false, batchTime := s.batchTime },
        some s.requests)
    else (s, none)
  | .replyLatency l =>
    let bt2 := min (1 / 10 * (l * (1 / 2)) + 9 / 10 * s.batchTime)
      ck.GRV_BATCH_TIMEOUT
    ({ s with batchTime := bt2 }, none)

/-- A run of the batcher loop: the final state and the counts of the
dispatched `GetReadVersion` RPCs in order. -/
def rvbRun (ck : ClientKnobs) (s : BatcherState) :
    List BatcherEvent → BatcherState × List Nat
  | [] => (s, [])
  | e :: es =>
    let sd := rvbStep ck s e
    let rest := rvbRun ck sd.1 es
    (rest.1, sd.2.toList ++ rest.2)

/-- The number of user requests in an event trace. -/
def rvbCountRequests (es : List BatcherEvent) : Nat :=
  es.countP (fun e => decide (e = .request))

theorem rvbStep_batchTime_bounds (ck : ClientKnobs) (s : BatcherState)
    (e : BatcherEvent) (hcap : 0 ≤ ck.GRV_BATCH_TIMEOUT)
    (h0 : 0 ≤ s.batchTime) (h1 : s.batchTime ≤ ck.GRV_BATCH_TIMEOUT)
    (hl : ∀ l, e = .replyLatency l → 0 ≤ l) :
    0 ≤ (rvbStep ck s e).1.batchTime ∧
      (rvbStep ck s e).1.batchTime ≤ ck.GRV_BATCH_TIMEOUT := by
  cases e with
  | request =>
    rw [rvbStep]
    by_cases h : s.requests + 1 = ck.MAX_BATCH_SIZE
    · rw [if_pos h]; exact ⟨h0, h1⟩
    · rw [if_neg h]; exact ⟨h0, h1⟩
  | timeoutFired =>
    rw [rvbStep]
    by_cases h : s.timerActive = true
    · rw [if_pos h]; exact ⟨h0, h1⟩
    · rw [if_neg h]; exact ⟨h0, h1⟩
  | replyLatency l =>
    have hl0 : 0 ≤ l := hl l rfl
    refine ⟨le_min ?_ hcap, min_le_right _ _⟩
    have t1 : (0 : ℚ) ≤ 1 / 10 * (l * (1 / 2)) := by positivity
    have t2 : (0 : ℚ) ≤ 9 / 10 * s.batchTime := by positivity
    simpa [rvbStep] using add_nonneg t1 t2

theorem rvbRun_batchTime_bounds (ck : ClientKnobs)
    (hcap : 0 ≤ ck.GRV_BATCH_TIMEOUT) :
    ∀ (es : List BatcherEvent) (s : BatcherState), 0 ≤ s.batchTime →
      s.batchTime ≤ ck.GRV_BATCH_TIMEOUT →
      (∀ l, BatcherEvent.replyLatency l ∈ es → 0 ≤ l) →
      0 ≤ (rvbRun ck s es).1.batchTime ∧
        (rvbRun ck s es).1.batchTime ≤ ck.GRV_BATCH_TIMEOUT := by
  intro es
  induction es with
  | nil => intro s h0 h1 _; exact ⟨h0, h1⟩
  | cons e rest ih =>
    intro s h0 h1 hl
    have hstep := rvbStep_batchTime_bounds ck s e hcap h0 h1
      (fun l hel => hl l (by rw [hel]; exact List.mem_cons_self _ _))
    have := ih (rvbStep ck s e).1 hstep.1 hstep.2
      (fun l hml => hl l (List.mem_cons_of_mem _ hml))
    simpa [rvbRun] using this

theorem rvbStep_requests (ck : ClientKnobs) (s : BatcherState)
    (e : BatcherEvent) :
    (rvbStep ck s e).1.requests + (rvbStep ck s e).2.toList.sum =
      s.requests + (if e = .request then 1 else 0) := by
  cases e with
  | request =>
    rw [rvbStep]
    by_cases h : s.requests + 1 = ck.MAX_BATCH_SIZE
    · rw [if_pos h]; simp
    · rw [if_neg h]; simp
  | timeoutFired =>
    rw [rvbStep]
    by_cases h : s.timerActive = true
    · rw [if_pos h]; simp
    · rw [if_neg h]; simp
  | replyLatency l => rw [rvbStep]; simp

theorem rvbRun_conservation (ck : ClientKnobs) :
    ∀ (es : List BatcherEvent) (s : BatcherState),
      (rvbRun ck s es).1.requests + (rvbRun ck s es).2.sum =
        s.requests + rvbCountRequests es := by
  intro es
  induction es with
  | nil => intro s; simp [rvbRun, rvbCountRequests]
  | cons e rest ih =>
    intro s
    have hstep := rvbStep_requests ck s e
    have hr := ih (rvbStep ck s e).1
    have hpred : (if (decide (e = BatcherEvent.request)) = true then 1 else 0) =
        (if e = BatcherEvent.request then 1 else 0) := by
      by_cases he : e = BatcherEvent.request <;> simp [he]
    rw [rvbCountRequests] at hr ⊢
    rw [List.countP_cons, hpred]
    simp only [rvbRun, List.sum_append]
    omega

/-- C5: the batcher dispatches exactly when a queued request fills the
batch to `MAX_BATCH_SIZE` or the running timeout fires; a dispatch
carries the number of queued user requests (including the filling one)
and empties the queue, so over a whole run the dispatched counts and the
final queue account exactly for the accepted user requests; a reply
latency updates the batch time to `min(0.1 * (0.5 * latency) + 0.9 *
batch_time, GRV_BATCH_TIMEOUT)`, which stays within `[0,
GRV_BATCH_TIMEOUT]` along any run with non-negative latencies. -/
theorem readVersionBatcher_spec (ck : ClientKnobs) (s : BatcherState)
    (es : List BatcherEvent) (e : BatcherEvent) (l0 : ℚ)
    (hcap : 0 ≤ ck.GRV_BATCH_TIMEOUT) (h0 : 0 ≤ s.batchTime)
    (h1 : s.batchTime ≤ ck.GRV_BATCH_TIMEOUT)
    (hls : ∀ l, BatcherEvent.replyLatency l ∈ es → 0 ≤ l) :
    ((rvbStep ck s e).2.isSome = true ↔
      (e = .request ∧ s.requests + 1 = ck.MAX_BATCH_SIZE) ∨
      (e = .timeoutFired ∧ s.timerActive = true)) ∧
    (∀ c, (rvbStep ck s e).2 = some c →
      c = s.requests + (if e = .request then 1 else 0) ∧
      (rvbStep ck s e).1.requests = 0) ∧
    ((rvbStep ck s (.replyLatency l0)).1.batchTime =
      min (1 / 10 * (l0 * (1 / 2)) + 9 / 10 * s.batchTime)
        ck.GRV_BATCH_TIMEOUT) ∧
    ((rvbRun ck s es).1.requests + (rvbRun ck s es).2.sum =
      s.requests + rvbCountRequests es) ∧
    (0 ≤ (rvbRun ck s es).1.batchTime ∧
      (rvbRun ck s es).1.batchTime ≤ ck.GRV_BATCH_TIMEOUT) := by
  refine ⟨?_, ?_, rfl, rvbRun_conservation ck es s,
    rvbRun_batchTime_bounds ck hcap es s h0 h1 hls⟩
  · cases e with
    | request =>
      rw [rvbStep]
      by_cases h : s.requests + 1 = ck.MAX_BATCH_SIZE
      · rw [if_pos h]
        simp [h]
      · rw [if_neg h]
        simp [h]
    | timeoutFired =>
      rw [rvbStep]
      by_cases h : s.timerActive = true
      · rw [if_pos h]
        simp [h]
      · rw [if_neg h]
        simp [h]
    | replyLatency l => simp [rvbStep]
  · intro c hc
    cases e with
    | request =>
      rw [rvbStep] at hc ⊢
      by_cases h : s.requests + 1 = ck.MAX_BATCH_SIZE
      · rw [if_pos h] at hc ⊢
        cases hc
        simp
      · rw [if_neg h] at hc
        cases hc
    | timeoutFired =>
      rw [rvbStep] at hc ⊢
      by_cases h : s.timerActive = true
      · rw [if_pos h] at hc ⊢
        cases hc
        simp
      · rw [if_neg h] at hc
        cases hc
    | replyLatency l =>
      rw [rvbStep] at hc
      cases hc

/-- The batcher state before any request. -/
def c5Start : BatcherState := { requests := 0, timerActive := false, batchTime := 0 }

theorem readVersionBatcher_spec_witness :
    (rvbRun c3K c5Start
        [BatcherEvent.request, BatcherEvent.request, BatcherEvent.timeoutFired]).1.requests +
      (rvbRun c3K c5Start
        [BatcherEvent.request, BatcherEvent.request, BatcherEvent.timeoutFired]).2.sum =
      c5Start.requests + rvbCountRequests
        [BatcherEvent.request, BatcherEvent.request, BatcherEvent.timeoutFired] :=
  (readVersionBatcher_spec c3K c5Start
    [BatcherEvent.request, BatcherEvent.request, BatcherEvent.timeoutFired]
    BatcherEvent.request 0 zero_le_one (le_refl 0) zero_le_one
    (fun l hml => by simp at hml)).2.2.2.1

/-- The API-version remapping at the top of `Transaction::atomicOp`:
`MIN → MINV2` and `AND → ANDV2` from API version 510 on. -/
def atomicOpRemap (apiVersion : Nat) (op : MutationType) : MutationType :=
  if 510 ≤ apiVersion then
    if op = .Min then .MinV2
    else if op = .And then .AndV2
    else op
  else op

/-- `Transaction::atomicOp`: reject oversized keys and operands, remap the
operation for the API version, append the mutation, and append the
singleton write-conflict range unless the (remapped) operation is
`SetVersionstampedKey`. -/
def atomicOp (ck : ClientKnobs) (apiVersion : Nat) (key : Key)
    (operand : List Nat) (operationType : MutationType)
    (addConflictRange : Bool) (t : TxBuffer) : Except Err TxBuffer :=
  if keySizeLimit ck key < key.length then .error .key_too_large
  else if ck.VALUE_SIZE_LIMIT < operand.length then .error .value_too_large
  else
    let op := atomicOpRemap apiVersion operationType
    let r := singleKeyRange key
    let t2 := { t with mutations := t.mutations ++ [⟨op, key, operand⟩] }
    .ok (if addConflictRange ∧ op ≠ .SetVersionstampedKey then
      { t2 with write_conflict_ranges := t2.write_conflict_ranges ++ [r] }
    else t2)

/-- Concrete knob values for the atomic-operation evaluations. -/
def c8K : ClientKnobs :=
  { KEY_SIZE_LIMIT := 100, SYSTEM_KEY_SIZE_LIMIT := 300,
    VALUE_SIZE_LIMIT := 100, BACKOFF_GROWTH_RATE := 2,
    RESOURCE_CONSTRAINED_MAX_BACKOFF := 8, FUTURE_VERSION_RETRY_DELAY := 1,
    TAG_THROTTLE_RECHECK_INTERVAL := 2, MAX_BATCH_SIZE := 5,
    GRV_BATCH_TIMEOUT := 1 }

/-- C8 counterexample: `atomicOp` with `SET_VERSIONSTAMPED_VALUE` and
conflict-range addition requested does append a write-conflict range for
the key, contradicting the claim that both versionstamped operations add
none. -/
theorem atomicOp_counterexample :
    atomicOp c8K 700 [1] [2] .SetVersionstampedValue true
        { mutations := [], read_conflict_ranges := [],
          write_conflict_ranges := [] } =
      .ok { mutations := [⟨.SetVersionstampedValue, [1], [2]⟩],
            read_conflict_ranges := [],
            write_conflict_ranges := [singleKeyRange [1]] } ∧
    [singleKeyRange [1]] ≠ ([] : List KeyRange) := by
  constructor
  · rfl
  · decide

/-- C8 amended: for every accepted key and operand with conflict-range
addition requested, `atomicOp` appends the (remapped) mutation, and
appends the singleton write-conflict range for the key exactly when the
remapped operation is not `SET_VERSIONSTAMPED_KEY`; in particular
`SET_VERSIONSTAMPED_KEY` adds no write-conflict range while
`SET_VERSIONSTAMPED_VALUE` does. -/
theorem atomicOp_conflict_ranges (ck : ClientKnobs) (apiVersion : Nat)
    (key : Key) (operand : List Nat) (operationType : MutationType)
    (t : TxBuffer)
    (hk : key.length ≤ keySizeLimit ck key)
    (hv : operand.length ≤ ck.VALUE_SIZE_LIMIT) :
    atomicOp ck apiVersion key operand operationType true t =
      .ok { mutations := t.mutations ++
              [⟨atomicOpRemap apiVersion operationType, key, operand⟩],
            read_conflict_ranges := t.read_conflict_ranges,
            write_conflict_ranges :=
              if atomicOpRemap apiVersion operationType =
                  .SetVersionstampedKey then
                t.write_conflict_ranges
              else t.write_conflict_ranges ++ [singleKeyRange key] } ∧
    atomicOpRemap apiVersion .SetVersionstampedKey = .SetVersionstampedKey ∧
    atomicOpRemap apiVersion .SetVersionstampedValue =
      .SetVersionstampedValue := by
  refine ⟨?_, ?_, ?_⟩
  · simp only [atomicOp, if_neg (not_lt.mpr hk), if_neg (not_lt.mpr hv)]
    by_cases hop : atomicOpRemap apiVersion operationType =
        MutationType.SetVersionstampedKey
    · simp [hop]
    · simp [hop]
  · rw [atomicOpRemap]
    split <;> simp
  · rw [atomicOpRemap]
    split <;> simp

theorem atomicOp_conflict_ranges_witness :
    atomicOp c8K 700 [1] [2] .SetVersionstampedKey true
        { mutations := [], read_conflict_ranges := [],
          write_conflict_ranges := [] } =
      .ok { mutations := [⟨.SetVersionstampedKey, [1], [2]⟩],
            read_conflict_ranges := [], write_conflict_ranges := [] } := by
  have h := (atomicOp_conflict_ranges c8K 700 [1] [2] .SetVersionstampedKey
    { mutations := [], read_conflict_ranges := [],
      write_conflict_ranges := [] } (by decide) (by decide)).1
  rw [h]
  rfl

/-- `WatchMetadata`: the watch-map entry for one key, carrying the value
and version the watch was registered with, the opaque transaction info and
tags, and the identity of the running server-side watch actor
(`watchFutureSS`). -/
structure WatchMetadata where
  key : Key
  value : Option (List Nat)
  version : Int
  info : Nat
  tags : List Nat
  watchFutureSS : Nat
deriving DecidableEq, Repr

/-- The watch map of a `DatabaseContext`, keyed by watched key. -/
abbrev WatchMap := List (Key × WatchMetadata)

/-- `setWatchMetadata`: store the entry for a key, replacing any prior one. -/
def wmSet (m : WatchMap) (k : Key) (md : WatchMetadata) : WatchMap :=
  (m.filter (fun p => ! (p.1 = k : Bool))) ++ [(k, md)]

/-- `deleteWatchMetadata`: drop the entry for a key. -/
def wmDelete (m : WatchMap) (k : Key) : WatchMap :=
  m.filter (fun p => ! (p.1 = k : Bool))

/-- What `getWatchFuture` does besides updating the map. -/
inductive WatchAction where
  | installNew
  | shareExisting
  | fireAndReplace
  | consultValue
  | ignore
deriving DecidableEq, Repr

/-- `getWatchFuture(ver, key, value, ...)`: the five coalescing cases on
the existing watch-map entry.  `newSS` is the identity of the server-side
watch actor that would be started for a fresh entry. -/
def getWatchFuture (ver : Int) (key : Key) (value : Option (List Nat))
    (info : Nat) (tags : List Nat) (newSS : Nat) (m : WatchMap) :
    WatchMap × WatchAction :=
  match m.lookup key with
  | none =>
    (wmSet m key ⟨key, value, ver, info, tags, newSS⟩, .installNew)
  | some md =>
    if md.value = value then
      (if md.version < ver then
        wmSet m key { md with version := ver, info := info, tags := tags }
      else m, .shareExisting)
    else if md.version < ver then
      (wmSet (wmDelete m key) key ⟨key, value, ver, info, tags, newSS⟩,
        .fireAndReplace)
    else if md.version = ver then (m, .consultValue)
    else (m, .ignore)

/-- C9: registering a watch whose value differs from the stored entry and
whose version is strictly below the stored version is a no-op: the watch
map is unchanged (so the stored key, value, version and server-side watch
future all survive) and no watch is fired, installed, or consulted. -/
theorem getWatchFuture_older_version_noop (ver : Int) (key : Key)
    (value : Option (List Nat)) (info : Nat) (tags : List Nat) (newSS : Nat)
    (m : WatchMap) (md : WatchMetadata)
    (hlook : m.lookup key = some md)
    (hval : md.value ≠ value)
    (hver : ver < md.version) :
    getWatchFuture ver key value info tags newSS m = (m, .ignore) ∧
    (getWatchFuture ver key value info tags newSS m).1.lookup key =
      some md := by
  have h1 : ¬ md.version < ver := not_lt.mpr (le_of_lt hver)
  have h2 : md.version ≠ ver := ne_of_gt hver
  have hmain : getWatchFuture ver key value info tags newSS m = (m, .ignore) := by
    rw [getWatchFuture, hlook]
    simp only [if_neg hval, if_neg h1, if_neg h2]
  exact ⟨hmain, by rw [hmain]; exact hlook⟩

/-- A concrete one-entry watch map holding value `[1]` at version 10. -/
def c9Entry : WatchMetadata :=
  { key := [3], value := some [1], version := 10, info := 0, tags := [],
    watchFutureSS := 42 }

theorem getWatchFuture_older_version_noop_witness :
    getWatchFuture 7 [3] (some [2]) 1 [] 43 [([3], c9Entry)] =
      ([([3], c9Entry)], .ignore) :=
  (getWatchFuture_older_version_noop 7 [3] (some [2]) 1 [] 43
    [([3], c9Entry)] c9Entry (by decide) (by decide) (by decide)).1

/-- The result of the front checks of `Transaction::get`. -/
inductive GetResult where
  | emptyOptional
  | metadataVersionRead
  | issueGetValue
deriving DecidableEq, Repr

/-- Modelled from the spec: `metadataVersionKey` (defined outside the
sources under study) is the system key `"\xff/metadataVersion"`. -/
def metadataVersionKey : Key :=
  [255, 47, 109, 101, 116, 97, 100, 97, 116, 97, 86, 101, 114, 115, 105,
   111, 110]

/-- The front of `Transaction::get`: an oversized key returns an empty
`Optional` before any conflict range is added or any request is issued;
otherwise a non-snapshot read appends the singleton read-conflict range
and the read proceeds (through the metadata-version cache for
`metadataVersionKey`, through `getValue` otherwise). -/
def transactionGet (ck : ClientKnobs) (key : Key) (snapshot : Bool)
    (rcr : List KeyRange) : GetResult × List KeyRange :=
  if keySizeLimit ck key < key.length then (.emptyOptional, rcr)
  else
    let rcr2 := if !snapshot then rcr ++ [singleKeyRange key] else rcr
    if key = metadataVersionKey then (.metadataVersionRead, rcr2)
    else (.issueGetValue, rcr2)

/-- `Transaction::set`: oversized keys are rejected with `key_too_large`,
oversized values with `value_too_large`; otherwise the mutation is
appended, with the singleton write-conflict range when requested. -/
def transactionSet (ck : ClientKnobs) (key : Key) (value : List Nat)
    (addConflictRange : Bool) (t : TxBuffer) : Except Err TxBuffer :=
  if keySizeLimit ck key < key.length then .error .key_too_large
  else if ck.VALUE_SIZE_LIMIT < value.length then .error .value_too_large
  else
    let r := singleKeyRange key
    let t2 := { t with mutations := t.mutations ++ [⟨.SetValue, key, value⟩] }
    .ok (if addConflictRange then
      { t2 with write_conflict_ranges := t2.write_conflict_ranges ++ [r] }
    else t2)

/-- C10: a key longer than its size limit makes `Transaction::get` return
an empty `Optional` immediately, without an error, without touching the
read-conflict ranges even for a non-snapshot read, and without issuing a
storage request - while `Transaction::set` throws `key_too_large` for the
same key. -/
theorem get_oversized_key_empty (ck : ClientKnobs) (key : Key)
    (snapshot : Bool) (rcr : List KeyRange) (value : List Nat)
    (addConflictRange : Bool) (t : TxBuffer)
    (hk : keySizeLimit ck key < key.length) :
    transactionGet ck key snapshot rcr = (.emptyOptional, rcr) ∧
    transactionSet ck key value addConflictRange t =
      .error .key_too_large := by
  constructor
  · rw [transactionGet, if_pos hk]
  · rw [transactionSet, if_pos hk]

theorem get_oversized_key_empty_witness :
    transactionGet c8K (List.replicate 101 1) false [] =
      (.emptyOptional, []) ∧
    transactionSet c8K (List.replicate 101 1) [7] true
        { mutations := [], read_conflict_ranges := [],
          write_conflict_ranges := [] } =
      .error .key_too_large :=
  get_oversized_key_empty c8K (List.replicate 101 1) false [] [7] true
    { mutations := [], read_conflict_ranges := [],
      write_conflict_ranges := [] } (by decide)

theorem kLe_false_iff (a b : Key) : kLe a b = false ↔ kLt b a = true := by
  simp [kLe]

theorem kLt_of_kLt_of_not_kLt {k b p : Key} (h1 : kLt k b = true)
    (h2 : kLt p b = false) : kLt k p = true := by
  cases h3 : kLt b p with
  | true => exact kLt_trans h1 h3
  | false => rw [kLt_conn h3 h2] at h1; exact h1

theorem not_kLt_of_not_kLt_of_not_kLt {k e p : Key} (h1 : kLt k e = false)
    (h2 : kLt e p = false) : kLt k p = false := by
  cases h3 : kLt k p with
  | false => rfl
  | true =>
    cases h4 : kLt p e with
    | true => rw [kLt_trans h3 h4] at h1; exact h1
    | false => rw [kLt_conn h2 h4] at h1; rw [h1] at h3; exact h3.symm

/-- Identity of a shared `LocationInfo` object. -/
abbrev LocationInfo := Nat

/-- Modelled from the spec: the interval location cache (`KeyRangeMap`,
whose implementation is outside the sources under study) is a total
interval map over the key space, represented by its boundary list: an
entry `(k, v)` gives every key from `k` up to the next boundary the value
`v` (`none` is "unknown").  Section 4.1 of the spec makes merging of
adjacent equal values optional; this model does not merge. -/
abbrev RangeMap := List (Key × Option LocationInfo)

/-- Scan of the boundary list: the accumulator holds the value of the
last boundary seen at or before `k`. -/
def rmLookupGo (k : Key) : RangeMap → Option LocationInfo → Option LocationInfo
  | [], acc => acc
  | (bk, bv) :: t, acc => rmLookupGo k t (if kLe bk k then bv else acc)

/-- Value of the interval map at key `k`. -/
def rmLookup (m : RangeMap) (k : Key) : Option LocationInfo :=
  rmLookupGo k m none

/-- `KeyRangeMap::size`: the number of boundaries. -/
def rmSize (m : RangeMap) : Nat := m.length

/-- Insertion of `[b, e) ↦ v`: the boundaries inside `[b, e]` are
replaced by `(b, v)` and `(e, old value at e)`. -/
def rmInsert (m : RangeMap) (b e : Key) (v : Option LocationInfo) :
    RangeMap :=
  if kLt b e then
    (m.filter (fun p => kLt p.1 b)) ++ [(b, v), (e, rmLookup m e)] ++
      (m.filter (fun p => kLt e p.1))
  else m

/-- The boundary list is strictly sorted. -/
abbrev rmSorted (m : RangeMap) : Prop :=
  m.Pairwise (fun p q => kLt p.1 q.1 = true)

theorem rmLookupGo_append (k : Key) (xs ys : RangeMap)
    (acc : Option LocationInfo) :
    rmLookupGo k (xs ++ ys) acc = rmLookupGo k ys (rmLookupGo k xs acc) := by
  induction xs generalizing acc with
  | nil => rfl
  | cons p t ih => rw [List.cons_append, rmLookupGo, rmLookupGo]; exact ih _

theorem rmLookupGo_skip (k : Key) (xs : RangeMap) (acc : Option LocationInfo)
    (h : ∀ p ∈ xs, kLe p.1 k = false) :
    rmLookupGo k xs acc = acc := by
  induction xs generalizing acc with
  | nil => rfl
  | cons p t ih =>
    rw [rmLookupGo, if_neg (by rw [h p (List.mem_cons_self _ _)]; exact fun hc => nomatch hc)]
    exact ih acc (fun q hq => h q (List.mem_cons_of_mem _ hq))

theorem rmLookupGo_all (k : Key) (xs : RangeMap) (acc : Option LocationInfo)
    (h : ∀ p ∈ xs, kLe p.1 k = true) :
    rmLookupGo k xs acc = (xs.map Prod.snd).getLastD acc := by
  induction xs generalizing acc with
  | nil => rfl
  | cons p t ih =>
    rw [rmLookupGo, if_pos (h p (List.mem_cons_self _ _)), List.map_cons,
      List.getLastD_cons]
    exact ih p.2 (fun q hq => h q (List.mem_cons_of_mem _ hq))

theorem rmLookupGo_filter (k : Key) (q : Key × Option LocationInfo → Bool)
    (xs : RangeMap) (acc : Option LocationInfo)
    (h : ∀ p ∈ xs, q p = false → kLe p.1 k = false) :
    rmLookupGo k (xs.filter q) acc = rmLookupGo k xs acc := by
  induction xs generalizing acc with
  | nil => rfl
  | cons p t ih =>
    by_cases hq : q p = true
    · rw [List.filter_cons_of_pos hq, rmLookupGo, rmLookupGo]
      exact ih _ (fun r hr hqr => h r (List.mem_cons_of_mem _ hr) hqr)
    · have hq2 : q p = false := by
        cases hqv : q p
        · rfl
        · exact absurd hqv hq
      rw [List.filter_cons_of_neg hq, rmLookupGo,
        if_neg (by rw [h p (List.mem_cons_self _ _) hq2]; exact fun hc => nomatch hc)]
      exact ih acc (fun r hr hqr => h r (List.mem_cons_of_mem _ hr) hqr)

theorem rmSorted_split (e : Key) (m : RangeMap) (hs : rmSorted m) :
    m = m.filter (fun p => ! kLt e p.1) ++ m.filter (fun p => kLt e p.1) := by
  induction m with
  | nil => rfl
  | cons p t ih =>
    rw [rmSorted, List.pairwise_cons] at hs
    cases hp : kLt e p.1 with
    | true =>
      have hall : ∀ q ∈ p :: t, kLt e q.1 = true := by
        intro r hr
        rcases List.mem_cons.mp hr with h | h
        · rw [h]; exact hp
        · exact kLt_trans hp (hs.1 r h)
      rw [List.filter_eq_nil_iff.mpr (fun a ha => by
          rw [hall a ha]; exact fun hc => nomatch hc),
        List.filter_eq_self.mpr (fun a ha => hall a ha), List.nil_append]
    | false =>
      rw [List.filter_cons_of_pos (by rw [hp]; rfl),
        List.filter_cons_of_neg (by rw [hp]; exact fun hc => nomatch hc)]
      rw [List.cons_append]
      exact congrArg (p :: ·) (ih hs.2)

theorem rmLookupGo_pair (k b e : Key) (v atE acc : Option LocationInfo) :
    rmLookupGo k [(b, v), (e, atE)] acc =
      if kLe e k then atE else if kLe b k then v else acc := by
  rw [rmLookupGo, rmLookupGo, rmLookupGo]

/-- The effect of `rmInsert` on `rmLookup`: the inserted value inside
`[b, e)`, the old value outside. -/
theorem rmLookup_insert (m : RangeMap) (b e k : Key)
    (v : Option LocationInfo) (hs : rmSorted m) (hbe : kLt b e = true) :
    rmLookup (rmInsert m b e v) k =
      if kLe b k && kLt k e then v else rmLookup m k := by
  rw [rmInsert, if_pos hbe, rmLookup, rmLookupGo_append, rmLookupGo_append,
    rmLookupGo_pair]
  by_cases hb : kLe b k = true
  · by_cases hke : kLt k e = true
    · -- inside the inserted range
      have hek : kLe e k = false := by rw [kLe_false_iff]; exact hke
      rw [hek]
      simp only [Bool.false_eq_true, if_false, hb, if_pos trivial, if_true]
      rw [rmLookupGo_skip k _ v (fun p hp => by
        rw [kLe_false_iff]
        exact kLt_trans hke (List.mem_filter.mp hp).2)]
      rw [if_pos (by simp [hb, hke])]
    · -- at or beyond the end boundary
      have hkef : kLt k e = false := by
        cases hv : kLt k e
        · rfl
        · exact absurd hv hke
      have hek : kLe e k = true := by rw [kLe]; rw [hkef]; rfl
      rw [hek, if_pos rfl]
      rw [if_neg (by simp [hkef])]
      -- the result is the scan of the suffix strictly beyond `e`, seeded
      -- with the old value at `e`
      have hsplit := rmSorted_split e m hs
      have hP : ∀ p ∈ m.filter (fun p => ! kLt e p.1), kLe p.1 k = true := by
        intro p hp
        have hpe : kLt e p.1 = false := by
          have h5 := (List.mem_filter.mp hp).2
          simp only [Bool.not_eq_true'] at h5
          exact h5
        rw [kLe]
        rw [not_kLt_of_not_kLt_of_not_kLt hkef hpe]
        rfl
      have hPe : ∀ p ∈ m.filter (fun p => ! kLt e p.1), kLe p.1 e = true := by
        intro p hp
        have h5 := (List.mem_filter.mp hp).2
        simp only [Bool.not_eq_true'] at h5
        rw [kLe, h5]
        rfl
      have hafter : ∀ p ∈ m.filter (fun p => kLt e p.1), kLe p.1 e = false := by
        intro p hp
        rw [kLe_false_iff]
        exact (List.mem_filter.mp hp).2
      have hatE : rmLookup m e =
          ((m.filter (fun p => ! kLt e p.1)).map Prod.snd).getLastD none := by
        conv_lhs => rw [rmLookup, hsplit]
        rw [rmLookupGo_append, rmLookupGo_all e _ none hPe,
          rmLookupGo_skip e _ _ hafter]
      conv_rhs => rw [rmLookup, hsplit]
      rw [rmLookupGo_append, rmLookupGo_all k _ none hP, hatE]
  · -- strictly before the inserted begin boundary
    have hbf : kLe b k = false := by
      cases hv : kLe b k
      · rfl
      · exact absurd hv hb
    have hkb : kLt k b = true := (kLe_false_iff _ _).mp hbf
    have hke : kLt k e = true := kLt_trans hkb hbe
    have hek : kLe e k = false := by rw [kLe_false_iff]; exact hke
    rw [hek, hbf]
    simp only [Bool.false_eq_true, if_false]
    rw [rmLookupGo_skip k _ _ (fun p hp => by
      rw [kLe_false_iff]
      exact kLt_trans hke (List.mem_filter.mp hp).2)]
    rw [if_neg (by simp [hbf])]
    exact rmLookupGo_filter k _ m none (fun p hp hq => by
      rw [kLe_false_iff]
      exact kLt_of_kLt_of_not_kLt hkb hq)

theorem rmInsert_sorted (m : RangeMap) (b e : Key)
    (v : Option LocationInfo) (hs : rmSorted m) :
    rmSorted (rmInsert m b e v) := by
  rw [rmInsert]
  by_cases hbe : kLt b e = true
  · rw [if_pos hbe]
    rw [rmSorted, List.pairwise_append]
    refine ⟨?_, ?_, ?_⟩
    · rw [List.pairwise_append]
      refine ⟨hs.filter _, ?_, ?_⟩
      · rw [List.pairwise_cons]
        refine ⟨?_, List.pairwise_cons.mpr ⟨(fun q hq => nomatch hq), List.Pairwise.nil⟩⟩
        intro q hq
        rcases List.mem_cons.mp hq with h | h
        · rw [h]; exact hbe
        · exact absurd h (List.not_mem_nil q)
      · intro p hp q hq
        have hpb : kLt p.1 b = true := (List.mem_filter.mp hp).2
        rcases List.mem_cons.mp hq with h | h
        · rw [h]; exact hpb
        · rcases List.mem_cons.mp h with h2 | h2
          · rw [h2]; exact kLt_trans hpb hbe
          · exact absurd h2 (List.not_mem_nil q)
    · exact hs.filter _
    · intro p hp q hq
      have heq : kLt e q.1 = true := (List.mem_filter.mp hq).2
      rcases List.mem_append.mp hp with h | h
      · have hpb : kLt p.1 b = true := (List.mem_filter.mp h).2
        exact kLt_trans (kLt_trans hpb hbe) heq
      · rcases List.mem_cons.mp h with h2 | h2
        · rw [h2]; exact kLt_trans hbe heq
        · rcases List.mem_cons.mp h2 with h3 | h3
          · rw [h3]; exact heq
          · exact absurd h3 (List.not_mem_nil p)
  · rw [if_neg hbe]; exact hs

/-- `KeyRangeMap::randomRange`: the `i`-th interval of the boundary list,
when it exists. -/
def rmRangeAt (m : RangeMap) (i : Nat) : Option KeyRange :=
  match m.drop i with
  | (b, _) :: (e, _) :: _ => some ⟨b, e⟩
  | _ => none

/-- One eviction: set the randomly drawn cached range to unknown. -/
def evictTarget (m : RangeMap) (i : Nat) : RangeMap :=
  match rmRangeAt m i with
  | some r => rmInsert m r.rbegin r.rend none
  | none => m

/-- The eviction loop of `DatabaseContext::setCachedLocation`: while the
cache size exceeds the configured size and fewer than `maxEvictionAttempts
= 100` attempts have been made, set a randomly drawn cached range to
unknown.  The remaining attempt budget is the recursion fuel; the second
component counts the attempts made. -/
def evictGo (cacheSize : Nat) (draws : Nat → Nat) :
    Nat → RangeMap → RangeMap × Nat
  | 0, m => (m, 0)
  | rem + 1, m =>
    if cacheSize < rmSize m then
      ((evictGo cacheSize draws rem (evictTarget m (draws rem))).1,
        (evictGo cacheSize draws rem (evictTarget m (draws rem))).2 + 1)
    else (m, 0)

/-- `DatabaseContext::setCachedLocation`: run the eviction loop with a
budget of 100 attempts, then insert the new coverage. -/
def setCachedLocation (cacheSize : Nat) (draws : Nat → Nat) (m : RangeMap)
    (keys : KeyRange) (loc : LocationInfo) : RangeMap × Nat :=
  let ev := evictGo cacheSize draws 100 m
  (rmInsert ev.1 keys.rbegin keys.rend (some loc), ev.2)

theorem evictGo_attempts_le (cacheSize : Nat) (draws : Nat → Nat) :
    ∀ (fuel : Nat) (m : RangeMap),
      (evictGo cacheSize draws fuel m).2 ≤ fuel := by
  intro fuel
  induction fuel with
  | zero => intro m; exact le_refl 0
  | succ rem ih =>
    intro m
    rw [evictGo]
    by_cases h : cacheSize < rmSize m
    · rw [if_pos h]
      exact Nat.succ_le_succ (ih _)
    · rw [if_neg h]
      exact Nat.zero_le _

theorem evictGo_small (cacheSize : Nat) (draws : Nat → Nat) (fuel : Nat)
    (m : RangeMap) (h : rmSize m ≤ cacheSize) :
    evictGo cacheSize draws fuel m = (m, 0) := by
  cases fuel with
  | zero => rfl
  | succ rem => rw [evictGo, if_neg (not_lt.mpr h)]

theorem evictGo_exit (cacheSize : Nat) (draws : Nat → Nat) :
    ∀ (fuel : Nat) (m : RangeMap),
      rmSize (evictGo cacheSize draws fuel m).1 ≤ cacheSize ∨
        (evictGo cacheSize draws fuel m).2 = fuel := by
  intro fuel
  induction fuel with
  | zero => intro m; exact Or.inr rfl
  | succ rem ih =>
    intro m
    rw [evictGo]
    by_cases h : cacheSize < rmSize m
    · rw [if_pos h]
      rcases ih (evictTarget m (draws rem)) with h2 | h2
      · exact Or.inl h2
      · exact Or.inr (by rw [h2])
    · rw [if_neg h]
      exact Or.inl (not_lt.mp h)

theorem evictGo_sorted (cacheSize : Nat) (draws : Nat → Nat) :
    ∀ (fuel : Nat) (m : RangeMap), rmSorted m →
      rmSorted (evictGo cacheSize draws fuel m).1 := by
  intro fuel
  induction fuel with
  | zero => intro m hs; exact hs
  | succ rem ih =>
    intro m hs
    rw [evictGo]
    by_cases h : cacheSize < rmSize m
    · rw [if_pos h]
      refine ih _ ?_
      rw [evictTarget]
      cases hr : rmRangeAt m (draws rem) with
      | some r => exact rmInsert_sorted m r.rbegin r.rend none hs
      | none => exact hs
    · rw [if_neg h]; exact hs

/-- C7: `setCachedLocation` performs at most 100 evictions per insert; if
the cache does not exceed the configured size it evicts nothing and only
inserts; the eviction loop stops exactly when the size no longer exceeds
the limit or the attempt budget is exhausted; and the final insertion
covers every key of the new range with the new location, leaving keys
outside the range at the value the evicted map gives them. -/
theorem setCachedLocation_spec (cacheSize : Nat) (draws : Nat → Nat)
    (m : RangeMap) (keys : KeyRange) (loc : LocationInfo)
    (hs : rmSorted m) (hne : kLt keys.rbegin keys.rend = true) :
    (setCachedLocation cacheSize draws m keys loc).2 ≤ 100 ∧
    (rmSize m ≤ cacheSize →
      (setCachedLocation cacheSize draws m keys loc).2 = 0 ∧
      (setCachedLocation cacheSize draws m keys loc).1 =
        rmInsert m keys.rbegin keys.rend (some loc)) ∧
    (rmSize (evictGo cacheSize draws 100 m).1 ≤ cacheSize ∨
      (setCachedLocation cacheSize draws m keys loc).2 = 100) ∧
    (∀ k, memRange k keys = true →
      rmLookup (setCachedLocation cacheSize draws m keys loc).1 k =
        some loc) ∧
    (∀ k, memRange k keys = false →
      rmLookup (setCachedLocation cacheSize draws m keys loc).1 k =
        rmLookup (evictGo cacheSize draws 100 m).1 k) := by
  have hsev := evictGo_sorted cacheSize draws 100 m hs
  refine ⟨evictGo_attempts_le cacheSize draws 100 m, ?_, ?_, ?_, ?_⟩
  · intro hsmall
    rw [setCachedLocation, evictGo_small cacheSize draws 100 m hsmall]
    exact ⟨rfl, rfl⟩
  · exact evictGo_exit cacheSize draws 100 m
  · intro k hmem
    rw [setCachedLocation]
    rw [rmLookup_insert _ _ _ _ _ hsev hne]
    rw [memRange] at hmem
    rw [if_pos hmem]
  · intro k hmem
    rw [setCachedLocation]
    rw [rmLookup_insert _ _ _ _ _ hsev hne]
    rw [memRange] at hmem
    rw [if_neg (by rw [hmem]; exact fun hc => nomatch hc)]

/-- A two-boundary map covering everything with location 9 from key `[2]`. -/
def c7Map : RangeMap := [([], none), ([2], some 9)]

theorem setCachedLocation_spec_witness :
    (setCachedLocation 8 (fun _ => 0) c7Map ⟨[5], [6]⟩ 1).2 ≤ 100 ∧
    rmLookup (setCachedLocation 8 (fun _ => 0) c7Map ⟨[5], [6]⟩ 1).1 [5] =
      some 1 :=
  ⟨(setCachedLocation_spec 8 (fun _ => 0) c7Map ⟨[5], [6]⟩ 1 (by decide)
      (by decide)).1,
   (setCachedLocation_spec 8 (fun _ => 0) c7Map ⟨[5], [6]⟩ 1 (by decide)
      (by decide)).2.2.2.1 [5] (by decide)⟩
